import Mathlib

/-!
Verification of the cluster-api-upgrade-tool control-plane and worker
upgraders: a shallow embedding of `pkg/upgrade` (control plane orchestrator,
machine creator, machine-deployment upgrader) with theorems about the
behaviour of the embedded operations.  External collaborators (the cluster
API client, node/pod registries, the remote exec channel, the YAML codec
and the semver library) are modelled at their boundary: each fallible
external call's outcome is an explicit field of the environment, and the
codecs act on already-structured values.
-/

/-- Semantic version as used by the tool: the numeric core of
`blang/semver.Version` (`Major`, `Minor`, `Patch`).  Pre-release and build
segments are not modelled: every version the upgrader handles is a plain
numeric Kubernetes version. -/
structure SemVer where
  major : Nat
  minor : Nat
  patch : Nat
deriving DecidableEq, Repr

/-- `a.LT b` of `blang/semver` restricted to numeric versions:
lexicographic comparison of (major, minor, patch). -/
def SemVer.ltb (a b : SemVer) : Bool :=
  Nat.blt a.major b.major ||
    (a.major == b.major &&
      (Nat.blt a.minor b.minor ||
        (a.minor == b.minor && Nat.blt a.patch b.patch)))

/-- The propositional form of `SemVer.ltb`. -/
def SemVer.Lt (a b : SemVer) : Prop :=
  a.major < b.major ∨
    (a.major = b.major ∧
      (a.minor < b.minor ∨ (a.minor = b.minor ∧ a.patch < b.patch)))

instance (a b : SemVer) : Decidable (SemVer.Lt a b) := by
  unfold SemVer.Lt; infer_instance

/-- The zero value `semver.Version{}`, used by the tool as the
"no version set" sentinel (`unsetVersion`). -/
def unsetVersion : SemVer := ⟨0, 0, 0⟩

/-- `isMinorVersionUpgrade` from the orchestrator:
`base.Major == update.Major && base.Minor < update.Minor`. -/
def isMinorVersionUpgrade (base update : SemVer) : Bool :=
  base.major == update.major && Nat.blt base.minor update.minor

/-- Split a character list at every occurrence of a separator, the
semantics of `strings.Split` for a one-character separator. -/
def splitOnChar (sep : Char) : List Char → List (List Char)
  | [] => [[]]
  | c :: rest =>
    match splitOnChar sep rest with
    | [] => [[]]
    | g :: gs => if c == sep then [] :: g :: gs else (c :: g) :: gs

/-- Numeric value of a digit list. -/
def digitsVal (cs : List Char) : Nat :=
  cs.foldl (fun a c => a * 10 + (c.toNat - 48)) 0

/-- A numeral without leading zeroes, as `blang/semver.Parse` requires of
the major/minor/patch components. -/
def parseNumeric (cs : List Char) : Option Nat :=
  if cs.isEmpty then none
  else if !cs.all Char.isDigit then none
  else if 1 < cs.length && cs.headD '0' == '0' then none
  else some (digitsVal cs)

/-- Drop leading and trailing whitespace, the semantics of
`strings.TrimSpace`. -/
def trimChars (cs : List Char) : List Char :=
  ((cs.dropWhile Char.isWhitespace).reverse.dropWhile Char.isWhitespace).reverse

/-- `semver.ParseTolerant` restricted to numeric versions: trim spaces,
strip a leading `v`, split on `.`, pad to three components, parse each
numeral.  Strings with pre-release/build segments or more than three
components fail (the numeric component parse rejects them). -/
def parseTolerant (s : String) : Option SemVer :=
  let t := trimChars s.data
  let t := match t with
    | 'v' :: rest => rest
    | other => other
  match splitOnChar '.' t with
  | [a] => do pure ⟨← parseNumeric a, 0, 0⟩
  | [a, b] => do pure ⟨← parseNumeric a, ← parseNumeric b, 0⟩
  | [a, b, c] => do pure ⟨← parseNumeric a, ← parseNumeric b, ← parseNumeric c⟩
  | _ => none

theorem SemVer.ltb_iff (a b : SemVer) : SemVer.ltb a b = true ↔ SemVer.Lt a b := by
  cases a; cases b
  simp [SemVer.ltb, SemVer.Lt, Nat.blt_eq]

theorem SemVer.eq_iff (a b : SemVer) :
    a = b ↔ a.major = b.major ∧ a.minor = b.minor ∧ a.patch = b.patch := by
  cases a; cases b; simp

theorem SemVer.lt_irrefl (a : SemVer) : ¬SemVer.Lt a a := by
  cases a; simp [SemVer.Lt]

theorem SemVer.lt_trans {a b c : SemVer} (h1 : SemVer.Lt a b) (h2 : SemVer.Lt b c) :
    SemVer.Lt a c := by
  cases a; cases b; cases c
  simp only [SemVer.Lt] at h1 h2 ⊢
  omega

theorem SemVer.lt_total (a b : SemVer) :
    SemVer.Lt a b ∨ a = b ∨ SemVer.Lt b a := by
  cases a; cases b
  simp only [SemVer.Lt, SemVer.eq_iff]
  omega

/-- First value bound to a key in an association list (Go map lookup on a
map whose keys are unique). -/
def lookupA {α : Type} : List (String × α) → String → Option α
  | [], _ => none
  | p :: rest, k => if p.1 == k then some p.2 else lookupA rest k

/-- Go map assignment `m[k] = v` on an association-list representation:
replace the binding in place when the key exists, append otherwise. -/
def mapSet {α : Type} : List (String × α) → String → α → List (String × α)
  | [], k, v => [(k, v)]
  | p :: rest, k, v => if p.1 == k then (k, v) :: rest else p :: mapSet rest k v

/-- A Node: the runtime registration of a machine's compute instance.
`addresses` are (type, address) pairs; `conditions` are not needed here. -/
structure Node where
  name : String
  addresses : List (String × String)
  providerID : String
deriving DecidableEq, Repr

/-- `hostnameForNode`: the first address of type `Hostname`, or `""`. -/
def hostnameForNode (node : Node) : String :=
  match node.addresses.find? (fun a => a.1 == "Hostname") with
  | some a => a.2
  | none => ""

/-- A `corev1.ObjectReference` as the orchestrator uses it. -/
structure ObjectRef where
  kind : String
  name : String
  ns : String
  resourceVersion : String
deriving DecidableEq, Repr

/-- The unstructured object `external.Get` returns for a reference: the
fields `updateObjectReference` touches, the rest opaque. -/
structure ExtObject where
  kind : String
  name : String
  resourceVersion : String
  ownerReferences : List String
  providerID : Option String
  rest : String
deriving DecidableEq, Repr

/-- `updateObjectReference`: default the reference's namespace, fetch the
object (outcome supplied by the environment as `getResult`), clear the
clone's resource version and owner references, rename it, remove
`spec.providerID`, and return the renamed reference with the prepared
clone.  The clone is returned, not created here: creation is the caller's
move. -/
def updateObjectReference (getResult : Except String ExtObject)
    (name : String) (ref : ObjectRef) : Except String (ObjectRef × ExtObject) :=
  let ns := if ref.ns == "" then "default" else ref.ns
  match getResult with
  | .error e => .error e
  | .ok obj =>
      .ok ({ ref with ns := ns, resourceVersion := "", name := name },
           { obj with resourceVersion := "", name := name,
                      ownerReferences := [], providerID := none })

/-- One row of `etcdctl member list -w json` as decoded by the tool. -/
structure EtcdMember where
  id : Nat
  name : String
  clientURLs : List String
deriving DecidableEq, Repr

/-- `strconv.FormatUint(id, 16)`: lowercase hexadecimal. -/
def natToHex (n : Nat) : String := String.mk (Nat.toDigits 16 n)

/-- `oldNodeToEtcdMemberId`: list the members (outcome supplied) and build
the hostname-to-hex-member-id map. -/
def oldNodeToEtcdMemberId (listResult : Except String (List EtcdMember)) :
    Except String (List (String × String)) :=
  match listResult with
  | .error e => .error e
  | .ok members =>
      .ok (members.foldl (fun m mem => mapSet m mem.name (natToHex mem.id)) [])

/-- The externally visible actions (create/delete/patch/exec) an upgrade
run performs, in order.  Reads and list calls carry no event. -/
inductive Ev where
  | listMachines
  | kubeletConfigMigrate
  | kubeletRbacEnsure
  | etcdHealthCheck
  | updateProviderIDMap
  | kubeadmRewrite (version : SemVer)
  | snapshotEtcdMembers
  | createObject (kind name : String)
  | createMachine (name : String)
  | removeEtcdMember (memberID : String)
  | deleteMachine (name : String)
  | patchAnnotate (name : String)
  | patchMachineDeployment (name : String)
deriving DecidableEq, Repr

/-- Whether an event is the kubeadm-config version rewrite. -/
def Ev.isRewrite : Ev → Bool
  | .kubeadmRewrite _ => true
  | _ => false

/-- Whether an event is a step of one machine's replacement (clone
creation, machine creation, member removal, old-machine deletion, or the
new-machine annotation patch). -/
def Ev.isPerMachine : Ev → Bool
  | .createObject _ _ => true
  | .createMachine _ => true
  | .removeEtcdMember _ => true
  | .deleteMachine _ => true
  | .patchAnnotate _ => true
  | _ => false

/-- Whether an event removes an etcd member. -/
def Ev.isRemoveMember : Ev → Bool
  | .removeEtcdMember _ => true
  | _ => false

/-- Whether an event deletes a Machine object. -/
def Ev.isDeleteMachine : Ev → Bool
  | .deleteMachine _ => true
  | _ => false

/-- Whether an event creates a cloned infra/bootstrap object. -/
def Ev.isCreateObject : Ev → Bool
  | .createObject _ _ => true
  | _ => false

/-- Result of a run: normal return, returned error, or runtime panic. -/
inductive RunResult where
  | ok
  | err (msg : String)
  | crash (msg : String)
deriving DecidableEq, Repr

/-- The machine creator's wait-stage switches (`shouldWaitFor...`).  The
orchestrator builds its creator with the defaults: all three true. -/
structure CreatorCfg where
  shouldWaitForProviderID : Bool
  shouldWaitForMatchingNode : Bool
  shouldWaitForNodeReady : Bool
deriving DecidableEq, Repr

/-- `MachineOptions`: the values that change on a machine upgrade. -/
structure MachineOptions where
  imageID : String
  imageField : String
  desiredVersion : SemVer
deriving DecidableEq, Repr

deriving instance DecidableEq for Except

/-- A control-plane Machine record together with the outcomes of every
external call its processing makes (the environment restricted to this
machine).  Data fields mirror `clusterapiv1alpha2.Machine`; the `...Ok`
and `...Result` fields are the oracle for the cluster API, node registry
and etcd calls made on this machine's behalf. -/
structure Machine where
  name : String
  resourceVersion : String
  version : String
  providerID : Option String
  annotations : List (String × String)
  infraRef : ObjectRef
  bootstrapRef : ObjectRef
  infraGetResult : Except String ExtObject
  infraCreateOk : Bool
  bootstrapGetResult : Except String ExtObject
  imageUpdateOk : Bool
  pidParseOk : Bool
  oldNode : Option Node
  createOk : Bool
  providerIDWait : Except String String
  matchingNodeWait : Except String Node
  nodeReadyWait : Except String Unit
  updateMapOk : Bool
  removeMemberOk : Bool
  deleteOk : Bool
  annotatePatchResult : Except String Unit
deriving DecidableEq, Repr

/-- The annotation key `UpgradeIDAnnotationKey = "upgrade-id"`. -/
def UpgradeIDAnnotationKey : String := "upgrade-id"

/-- `v.String()` of the desired version as stamped on a new machine. -/
def semverString (v : SemVer) : String :=
  toString v.major ++ "." ++ toString v.minor ++ "." ++ toString v.patch

/-- `MachineCreator.NewMachine`: clone the source machine, clear its
resource version and provider ID, rename it, optionally rewrite the image
field, stamp the desired version, submit it for creation, then run the
configured wait stages.  Each external outcome comes from the source
machine's oracle fields.  Returns the trace of performed actions and
either an error or the new machine with the node obtained (none when the
matching-node stage did not run). -/
def NewMachine (cfg : CreatorCfg) (mo : MachineOptions) (name : String)
    (source : Machine) : List Ev × Except String (Machine × Option Node) :=
  let newMachine : Machine :=
    { source with resourceVersion := "", providerID := none, name := name }
  if mo.imageField != "" && mo.imageID != "" && !source.imageUpdateOk then
    ([], .error "error updating machine spec image")
  else
    let newMachine := { newMachine with version := semverString mo.desiredVersion }
    if !source.createOk then
      ([Ev.createMachine name], .error "error creating machine")
    else if cfg.shouldWaitForProviderID then
      match source.providerIDWait with
      | .error e => ([Ev.createMachine name], .error e)
      | .ok _pid =>
          if cfg.shouldWaitForMatchingNode then
            match source.matchingNodeWait with
            | .error e => ([Ev.createMachine name], .error e)
            | .ok node =>
                if cfg.shouldWaitForNodeReady then
                  match source.nodeReadyWait with
                  | .error e => ([Ev.createMachine name], .error e)
                  | .ok _ => ([Ev.createMachine name], .ok (newMachine, some node))
                else ([Ev.createMachine name], .ok (newMachine, some node))
          else ([Ev.createMachine name], .ok (newMachine, none))
    else ([Ev.createMachine name], .ok (newMachine, none))

/-- `ControlPlaneUpgrader.applyAnnotation` (named `applyAnnot` here):
snapshot the machine, add the upgrade-id annotation, issue the merge
patch — and discard the patch call's result, returning nil
unconditionally.  `patchResult` is the outcome the cluster API gives the
discarded patch call. -/
def applyAnnot (upgradeID : String) (m : Machine)
    (patchResult : Except String Unit) : List Ev × Machine × Except String Unit :=
  let updated :=
    { m with annotations := mapSet m.annotations UpgradeIDAnnotationKey upgradeID }
  ([Ev.patchAnnotate m.name], updated, .ok ())

/-- `ControlPlaneUpgrader.updateMachine`: parse the old machine's provider
ID (a panic if the pointer is nil — the loop guarantees it is not),
resolve the old node, remember its hostname, run the machine creator,
resolve the new node's hostname — dereferencing the creator's node
pointer, a panic when it is nil —, refresh the provider-ID map, remove
the old etcd member, delete the old machine with foreground cascade, and
annotate the new machine. -/
def updateMachine (cfg : CreatorCfg) (mo : MachineOptions) (upgradeID : String)
    (oldNodeToEtcdMember : List (String × String)) (name : String)
    (m : Machine) : List Ev × RunResult :=
  match m.providerID with
  | none => ([], .crash "nil Spec.ProviderID dereference")
  | some _pid =>
    if !m.pidParseOk then ([], .err "error parsing provider id") else
    match m.oldNode with
    | none => ([], .err "unknown previous node")
    | some oldNode =>
      let oldHostName := hostnameForNode oldNode
      match NewMachine cfg mo name m with
      | (t, .error e) => (t, .err e)
      | (t, .ok (newMachine, nodeOpt)) =>
        match nodeOpt with
        | none => (t, .crash "nil node dereference in hostnameForNode")
        | some node =>
          let _nodeHostname := hostnameForNode node
          let t := t ++ [Ev.updateProviderIDMap]
          if !m.updateMapOk then (t, .err "error updating provider id to nodes map") else
          let memberId := (lookupA oldNodeToEtcdMember oldHostName).getD ""
          let t := t ++ [Ev.removeEtcdMember memberId]
          if !m.removeMemberOk then (t, .err "unable to delete old etcd member") else
          let t := t ++ [Ev.deleteMachine m.name]
          if !m.deleteOk then (t, .err "error deleting machine") else
          match applyAnnot upgradeID newMachine m.annotatePatchResult with
          | (at_, _, .ok _) => (t ++ at_, .ok)
          | (at_, _, .error e) => (t ++ at_, .err e)

/-- The machine creator the orchestrator builds in `updateCRDs` passes no
`ShouldWaitFor...` option, so all three wait stages keep their default:
enabled. -/
def defaultCreatorCfg : CreatorCfg := ⟨true, true, true⟩

/-- The body of `ControlPlaneUpgrader.updateCRDs` for one machine that
passed the skip conditions: derive the timestamped new name (an error
when the old name has fewer than two `-`-separated parts), clone and
create the infrastructure-ref object, clone the bootstrap-ref object (the
source never submits this clone for creation), and run `updateMachine`.
`now` is the Unix timestamp used in the new name. -/
def processOne (upgradeID : String) (now : Nat) (mo : MachineOptions)
    (etcdMap : List (String × String)) (m : Machine) : List Ev × RunResult :=
  let nameParts := splitOnChar '-' m.name.data
  if nameParts.length < 2 then
    ([], .err "machine name does not match expected format")
  else
    let name := String.mk (nameParts.getD 0 []) ++ "-" ++
      String.mk (nameParts.getD 1 []) ++ "-" ++ Nat.repr now
    match updateObjectReference m.infraGetResult name m.infraRef with
    | .error e => ([], .err e)
    | .ok (infraRef, infraObj) =>
      let t := [Ev.createObject infraObj.kind name]
      if !m.infraCreateOk then (t, .err "error creating infra object") else
      let m1 := { m with infraRef := infraRef }
      match updateObjectReference m1.bootstrapGetResult name m1.bootstrapRef with
      | .error e => (t, .err e)
      | .ok (bootstrapRef, _bootstrapObj) =>
        let m2 := { m1 with bootstrapRef := bootstrapRef }
        let mr := updateMachine defaultCreatorCfg mo upgradeID etcdMap name m2
        (t ++ mr.1, mr.2)

/-- The loop of `updateCRDs` over the machine list: the skip conditions,
then `processOne` for each remaining machine, stopping at the first
error. -/
def updateCRDsLoop (upgradeID : String) (now : Nat) (mo : MachineOptions)
    (etcdMap : List (String × String)) : List Machine → List Ev × RunResult
  | [] => ([], .ok)
  | m :: rest =>
    if lookupA m.annotations UpgradeIDAnnotationKey == some upgradeID then
      updateCRDsLoop upgradeID now mo etcdMap rest
    else match m.providerID with
    | none => updateCRDsLoop upgradeID now mo etcdMap rest
    | some _ =>
      match processOne upgradeID now mo etcdMap m with
      | (t, .ok) =>
          let rr := updateCRDsLoop upgradeID now mo etcdMap rest
          (t ++ rr.1, rr.2)
      | (t, .err e) => (t, .err e)
      | (t, .crash e) => (t, .crash e)

/-- The upgrade-wide environment: configuration plus the outcome of every
external call the orchestrator makes outside the per-machine loop. -/
structure UpgradeEnv where
  upgradeID : String
  now : Nat
  imageID : String
  imageField : String
  userVersion : SemVer
  listResult : Except String (List Machine)
  kubeletCmOk : Bool
  kubeletRbacOk : Bool
  etcdHealthOk : Bool
  updateMapOk : Bool
  kubeadmRewriteOk : Bool
  etcdMembersResult : Except String (List EtcdMember)
deriving DecidableEq, Repr

/-- `ControlPlaneUpgrader.updateCRDs`: snapshot the old-hostname to
etcd-member-id map, build the machine creator with default waits, and run
the per-machine loop. -/
def updateCRDs (env : UpgradeEnv) (desired : SemVer) (machines : List Machine) :
    List Ev × RunResult :=
  match oldNodeToEtcdMemberId env.etcdMembersResult with
  | .error e => ([Ev.snapshotEtcdMembers], .err e)
  | .ok etcdMap =>
      let mo : MachineOptions := ⟨env.imageID, env.imageField, desired⟩
      let (lt, r) := updateCRDsLoop env.upgradeID env.now mo etcdMap machines
      (Ev.snapshotEtcdMembers :: lt, r)

/-- The defaulting step of `Upgrade`: when the user did not set a version
(the sentinel `unsetVersion`), the desired version is the observed
maximum (modelled from the spec for the set case: the configured version
is kept). -/
def defaultedDesiredVersion (userVersion maxObserved : SemVer) : SemVer :=
  if unsetVersion == userVersion then maxObserved else userVersion

/-- `minMaxControlPlaneVersions`, inner loop: machines with an empty
version string are skipped; a version that fails to parse is an error;
min and max are updated with the zero version as "still unset"
sentinel. -/
def minMaxAux : List Machine → SemVer → SemVer → Except String (SemVer × SemVer)
  | [], mn, mx => .ok (mn, mx)
  | m :: rest, mn, mx =>
    if m.version == "" then minMaxAux rest mn mx
    else match parseTolerant m.version with
      | none => .error ("invalid control plane version " ++ m.version ++
          " for machine " ++ m.name)
      | some v =>
          minMaxAux rest
            (if mn == unsetVersion || SemVer.ltb v mn then v else mn)
            (if mx == unsetVersion || SemVer.ltb mx v then v else mx)

/-- `minMaxControlPlaneVersions`: fold over the machine list starting from
the zero version for both accumulators. -/
def minMaxControlPlaneVersions (machines : List Machine) :
    Except String (SemVer × SemVer) :=
  minMaxAux machines unsetVersion unsetVersion

/-- The stages of `ControlPlaneUpgrader.Upgrade` from the consensus-store
health check up to and including the kubeadm-config version rewrite,
which the source performs before entering `updateCRDs`. -/
def upgradePreRest (env : UpgradeEnv) (desired : SemVer) (machines : List Machine)
    (t : List Ev) : List Ev × Except String (SemVer × List Machine) :=
  let t1 := t ++ [Ev.etcdHealthCheck]
  if !env.etcdHealthOk then (t1, .error "etcd cluster health check failed") else
  let t2 := t1 ++ [Ev.updateProviderIDMap]
  if !env.updateMapOk then (t2, .error "error updating provider ids to nodes") else
  let t3 := t2 ++ [Ev.kubeadmRewrite desired]
  if !env.kubeadmRewriteOk then (t3, .error "error updating kubeadm configmap") else
  (t3, .ok (desired, machines))

/-- `ControlPlaneUpgrader.Upgrade` up to the point where `updateCRDs` is
entered: list the machines (an error when none), compute the min/max
versions, default the desired version, run the kubelet forward-migration
when the upgrade crosses a minor version, then the health check, provider
ID map update and kubeadm-config rewrite. -/
def upgradePre (env : UpgradeEnv) : List Ev × Except String (SemVer × List Machine) :=
  match env.listResult with
  | .error e => ([Ev.listMachines], .error e)
  | .ok machines =>
    if machines.isEmpty then
      ([Ev.listMachines], .error "Found 0 control plane machines")
    else match minMaxControlPlaneVersions machines with
    | .error e => ([Ev.listMachines], .error e)
    | .ok (mn, mx) =>
      let desired := defaultedDesiredVersion env.userVersion mx
      if isMinorVersionUpgrade mn desired then
        let t1 := [Ev.listMachines, Ev.kubeletConfigMigrate]
        if !env.kubeletCmOk then (t1, .error "error updating kubelet configmap") else
        let t2 := t1 ++ [Ev.kubeletRbacEnsure]
        if !env.kubeletRbacOk then (t2, .error "error updating kubelet rbac") else
        upgradePreRest env desired machines t2
      else upgradePreRest env desired machines [Ev.listMachines]

/-- `ControlPlaneUpgrader.Upgrade`: the pre stages, then `updateCRDs`. -/
def Upgrade (env : UpgradeEnv) : List Ev × RunResult :=
  match upgradePre env with
  | (t, .error e) => (t, .err e)
  | (t, .ok (desired, machines)) =>
      let (ct, r) := updateCRDs env desired machines
      (t ++ ct, r)

/-- A worker MachineDeployment with the outcome of the patch call made on
its behalf. -/
structure MachineDeployment where
  name : String
  templateAnnotations : List (String × String)
  templateVersion : String
  imageUpdateOk : Bool
  patchOk : Bool
deriving DecidableEq, Repr

/-- `MachineDeploymentUpgrader.upgradeMachineDeployments`: skip any
deployment whose template already carries this upgrade id, otherwise
issue the read-modify-write patch (version, annotation, optional image
field), failing fast on the first error. -/
def upgradeMachineDeployments (upgradeID : String) (imageField imageID : String) :
    List MachineDeployment → List Ev × RunResult
  | [] => ([], .ok)
  | md :: rest =>
    if lookupA md.templateAnnotations UpgradeIDAnnotationKey == some upgradeID then
      upgradeMachineDeployments upgradeID imageField imageID rest
    else
      if imageField != "" && imageID != "" && !md.imageUpdateOk then
        ([], .err "error updating machine spec image")
      else
        let t := [Ev.patchMachineDeployment md.name]
        if !md.patchOk then (t, .err "error patching machinedeployment")
        else
          let (rt, rres) := upgradeMachineDeployments upgradeID imageField imageID rest
          (t ++ rt, rres)

/-- A top-level entry of the `ClusterConfiguration` document: key and the
serialized value (opaque to the rewrite, which only replaces the
`kubernetesVersion` entry wholesale). -/
abbrev CCDoc := List (String × String)

/-- Lexicographic at-most comparison of character lists (byte order of
Go's sorted map keys; the keys here are ASCII). -/
def charsLeb : List Char → List Char → Bool
  | [], _ => true
  | _ :: _, [] => false
  | a :: as, b :: bs =>
      if a.toNat < b.toNat then true
      else if a == b then charsLeb as bs
      else false

/-- Lexicographic at-most comparison of strings. -/
def strLeb (a b : String) : Bool := charsLeb a.data b.data

/-- Insert a key-value pair into a key-sorted list, keeping it sorted
(the serializer of `sigs.k8s.io/yaml` emits map keys in sorted order). -/
def insertSorted (p : String × String) : CCDoc → CCDoc
  | [] => [p]
  | q :: rest => if strLeb p.1 q.1 then p :: q :: rest else q :: insertSorted p rest

/-- Key-sorted serialization order of a decoded map, as `yaml.Marshal`
produces for a Go map. -/
def sortByKey (d : CCDoc) : CCDoc := d.foldr insertSorted []

/-- The kubeadm `ConfigMap`: metadata (opaque here) and the `data` map.
The `ClusterConfiguration` value is carried in decoded form; the other
values are opaque documents represented by their decoded entry lists as
well. -/
structure ConfigMap where
  name : String
  resourceVersion : String
  data : List (String × CCDoc)
deriving DecidableEq, Repr

/-- `updateKubeadmKubernetesVersion`: deep-copy the config map, decode its
`ClusterConfiguration` value (an absent key decodes as the empty
document), assign `kubernetesVersion`, re-serialize (sorted keys), and
store the result back under `ClusterConfiguration`.  The function is
pure: the original is deep-copied by the source before any mutation. -/
def updateKubeadmKubernetesVersion (original : ConfigMap) (version : String) :
    ConfigMap :=
  let clusterConfig := (lookupA original.data "ClusterConfiguration").getD []
  let updated := sortByKey (mapSet clusterConfig "kubernetesVersion" version)
  { original with data := mapSet original.data "ClusterConfiguration" updated }

/-- Outcome of the pod getter for one pod name: not found (a distinguished
signal), another read error, or the pod with its (type, status) condition
pairs. -/
inductive PodGetResult where
  | notFound
  | errOther (msg : String)
  | found (conditions : List (String × String))
deriving DecidableEq, Repr

/-- The fixed ordered component list of `isReady`. -/
def components : List String := ["etcd", "kube-apiserver", "kube-scheduler",
  "kube-controller-manager"]

/-- The condition types `isReady` requires to be `True`. -/
def requiredConditions : List String := ["PodScheduled", "Initialized", "Ready",
  "ContainersReady"]

/-- The condition types of a pod whose status is the string `True`. -/
def trueConditions (conds : List (String × String)) : List String :=
  (conds.filter (fun c => c.2 == "True")).map (fun c => c.1)

/-- One component's check inside `isReady`: get the pod
`<component>-<hostname>`; not-found and unexpected errors are false (not
propagated); a found pod must carry every required condition with status
`True`. -/
def componentReady (get : String → PodGetResult) (hostname comp : String) : Bool :=
  match get (comp ++ "-" ++ hostname) with
  | .notFound => false
  | .errOther _ => false
  | .found conds =>
      requiredConditions.all (fun rc => (trueConditions conds).contains rc)

/-- The loop of `isReady` over the component list, also recording which
pods were fetched: the loop returns false at the first failing component
without consulting the rest. -/
def isReadyAux (get : String → PodGetResult) (hostname : String) :
    List String → List String × Bool
  | [] => ([], true)
  | c :: rest =>
    let pn := c ++ "-" ++ hostname
    if componentReady get hostname c then
      let (t, b) := isReadyAux get hostname rest
      (pn :: t, b)
    else ([pn], false)

/-- `MachineCreator.isReady`: every component's pod present and fully
conditioned. -/
def isReady (get : String → PodGetResult) (hostname : String) : Bool :=
  (isReadyAux get hostname components).2

/-- The pod names `isReady` fetched, in order. -/
def consultedPods (get : String → PodGetResult) (hostname : String) : List String :=
  (isReadyAux get hostname components).1

/-- The condition function `waitForNodeReady` polls: `(isReady(...), nil)`
— the error component is always nil, so an unready or erroring iteration
never stops the poll before its timeout. -/
def nodeReadyPollStep (get : String → PodGetResult) (hostname : String) :
    Bool × Option String :=
  (isReady get hostname, none)

/-- The old node backing the fixture machine. -/
def oldN : Node := ⟨"n1", [("ExternalIP", "10.0.0.1"), ("Hostname", "h1")], "aws:///z/i-1"⟩

/-- The node found for the fixture machine's replacement. -/
def newN : Node := ⟨"n2", [("Hostname", "h2")], "aws:///z/i-2"⟩

/-- A control-plane machine fixture whose every external call succeeds. -/
def mConc : Machine :=
  { name := "cp-0"
  , resourceVersion := "7"
  , version := "v1.13.7"
  , providerID := some "aws:///z/i-1"
  , annotations := []
  , infraRef := ⟨"AWSMachine", "cp-0", "default", "8"⟩
  , bootstrapRef := ⟨"KubeadmConfig", "cp-0-cfg", "default", "9"⟩
  , infraGetResult := .ok ⟨"AWSMachine", "cp-0", "8", ["o1"], some "aws:///z/i-1", "ir"⟩
  , infraCreateOk := true
  , bootstrapGetResult := .ok ⟨"KubeadmConfig", "cp-0-cfg", "9", ["o1"], none, "br"⟩
  , imageUpdateOk := true
  , pidParseOk := true
  , oldNode := some oldN
  , createOk := true
  , providerIDWait := .ok "aws:///z/i-2"
  , matchingNodeWait := .ok newN
  , nodeReadyWait := .ok ()
  , updateMapOk := true
  , removeMemberOk := true
  , deleteOk := true
  , annotatePatchResult := .ok () }

/-- An upgrade environment with one outdated machine where every external
call succeeds: the run goes end to end. -/
def envC1 : UpgradeEnv :=
  { upgradeID := "u1"
  , now := 100
  , imageID := ""
  , imageField := ""
  , userVersion := unsetVersion
  , listResult := .ok [mConc]
  , kubeletCmOk := true
  , kubeletRbacOk := true
  , etcdHealthOk := true
  , updateMapOk := true
  , kubeadmRewriteOk := true
  , etcdMembersResult := .ok [⟨11, "h1", ["https://10.0.0.1:2379"]⟩] }

/-- Claim C6: `isMinorVersionUpgrade a b` is true exactly when the major
versions agree and the minor version strictly increases; hence it is
false for any major change and for any non-increasing minor. -/
theorem c6_minor_version_upgrade_iff (a b : SemVer) :
    isMinorVersionUpgrade a b = true ↔ a.major = b.major ∧ a.minor < b.minor := by
  simp [isMinorVersionUpgrade, Nat.blt_eq]

/-- In the all-success run `envC1`, the kubeadm-config version rewrite is
performed at position 3 of the action trace and a per-machine replacement
step (deleting the old machine) at position 9, after it: the rewrite
precedes the per-machine loop, refuting the claimed ordering. -/
theorem c1_counterexample :
    (Upgrade envC1).1.get? 3 = some (Ev.kubeadmRewrite ⟨1, 13, 7⟩) ∧
    (Upgrade envC1).1.get? 9 = some (Ev.deleteMachine "cp-0") ∧
    Ev.isRewrite (Ev.kubeadmRewrite ⟨1, 13, 7⟩) = true ∧
    Ev.isPerMachine (Ev.deleteMachine "cp-0") = true ∧
    (Upgrade envC1).2 = RunResult.ok := by decide

/-- Claim C2: in the all-success run `envC1`, the orchestrator prepares
the bootstrap-ref clone (renamed, resource version and owner references
cleared) exactly as it prepares the infra-ref clone, but the only object
creation the whole run submits is the infrastructure clone: the bootstrap
clone is never submitted for creation, although the run completes.  This
contradicts the claim that both clones are recreated. -/
theorem c2_bootstrap_clone_not_created :
    (Upgrade envC1).1.filter Ev.isCreateObject =
      [Ev.createObject "AWSMachine" "cp-0-100"] ∧
    updateObjectReference mConc.bootstrapGetResult "cp-0-100" mConc.bootstrapRef =
      .ok (⟨"KubeadmConfig", "cp-0-100", "default", ""⟩,
           ⟨"KubeadmConfig", "cp-0-100", "", [], none, "br"⟩) ∧
    (Upgrade envC1).2 = RunResult.ok := by decide

/-- The creator configuration with the matching-node wait disabled. -/
def cfgNoMatch : CreatorCfg := ⟨true, false, false⟩

/-- The machine options used in the disabled-matching-node scenario. -/
def moPlain : MachineOptions := ⟨"", "", ⟨1, 13, 8⟩⟩

/-- Claim C5: with the matching-node wait disabled, `NewMachine` returns
right after the provider-ID stage with no node (`none`) and no error —
but `updateMachine` then dereferences that nil node reference inside
`hostnameForNode` and crashes, instead of failing the member-removal
step with an error: the removal step (and everything after it) is never
reached. -/
theorem c5_nil_node_crash :
    (NewMachine cfgNoMatch moPlain "cp-0-100" mConc).2.map (fun p => p.2) =
      Except.ok none ∧
    (NewMachine cfgNoMatch moPlain "cp-0-100" mConc).1 =
      [Ev.createMachine "cp-0-100"] ∧
    updateMachine cfgNoMatch moPlain "u1" [("h1", "b")] "cp-0-100" mConc =
      ([Ev.createMachine "cp-0-100"],
       RunResult.crash "nil node dereference in hostnameForNode") := by decide

theorem NewMachine_apr (cfg : CreatorCfg) (mo : MachineOptions) (name : String)
    (m : Machine) (x : Except String Unit) :
    NewMachine cfg mo name { m with annotatePatchResult := x } =
    ((NewMachine cfg mo name m).1,
     (NewMachine cfg mo name m).2.map
       (fun p => ({ p.1 with annotatePatchResult := x }, p.2))) := by
  cases m
  simp only [NewMachine]
  repeat' split
  all_goals rfl

/-- Claim C10: `applyAnnotation` always returns nil — the outcome of the
annotation patch is discarded — and therefore the per-machine update is
entirely insensitive to that outcome: a rejected or failed annotation
patch never surfaces as an error and never changes what the upgrade run
does. -/
theorem c10_annotation_patch_result_discarded (upgradeID : String) (m : Machine)
    (r1 r2 : Except String Unit) (cfg : CreatorCfg) (mo : MachineOptions)
    (emap : List (String × String)) (name : String) :
    (applyAnnot upgradeID m r1).2.2 = Except.ok () ∧
    updateMachine cfg mo upgradeID emap name { m with annotatePatchResult := r1 } =
      updateMachine cfg mo upgradeID emap name { m with annotatePatchResult := r2 } := by
  refine ⟨rfl, ?_⟩
  simp only [updateMachine, NewMachine_apr, applyAnnot]
  rcases hb : NewMachine cfg mo name m with ⟨bt, bres⟩
  rcases bres with e | p
  · simp [Except.map]
  · rcases p with ⟨nm0, nodeOpt⟩
    rcases nodeOpt with _ | node <;> simp [Except.map]

theorem updateCRDsLoop_filter (uid : String) (now : Nat) (mo : MachineOptions)
    (emap : List (String × String)) (ms : List Machine) :
    updateCRDsLoop uid now mo emap ms =
      updateCRDsLoop uid now mo emap
        (ms.filter (fun m => !(lookupA m.annotations UpgradeIDAnnotationKey == some uid))) := by
  induction ms with
  | nil => rfl
  | cons m rest ih =>
    cases h : lookupA m.annotations UpgradeIDAnnotationKey == some uid
    · simp only [updateCRDsLoop, List.filter_cons, h, Bool.not_false, if_true, if_pos]
      rw [ih]
    · simp only [updateCRDsLoop, List.filter_cons, h, Bool.not_true, if_neg, if_false]
      simpa using ih

theorem upgradeMDs_filter (uid ifield iid : String) (mds : List MachineDeployment) :
    upgradeMachineDeployments uid ifield iid mds =
      upgradeMachineDeployments uid ifield iid
        (mds.filter (fun md =>
          !(lookupA md.templateAnnotations UpgradeIDAnnotationKey == some uid))) := by
  induction mds with
  | nil => rfl
  | cons md rest ih =>
    cases h : lookupA md.templateAnnotations UpgradeIDAnnotationKey == some uid
    · simp only [upgradeMachineDeployments, List.filter_cons, h, Bool.not_false, if_true]
      rw [ih]
    · simp only [upgradeMachineDeployments, List.filter_cons, h, Bool.not_true, if_false]
      simpa using ih

/-- Claim C4: an item already annotated with the current upgrade
identifier contributes nothing to an upgrade run: the control-plane
per-machine pass and the worker machine-deployment pass each produce
exactly the actions and the result they would produce on the list with
every so-annotated item removed — the loop skips it entirely, performing
no create, delete or patch on its behalf and leaving all other items'
processing unchanged. -/
theorem c4_annotated_items_skipped (env : UpgradeEnv) (desired : SemVer)
    (ms : List Machine) (uid ifield iid : String) (mds : List MachineDeployment) :
    updateCRDs env desired ms =
      updateCRDs env desired (ms.filter (fun m =>
        !(lookupA m.annotations UpgradeIDAnnotationKey == some env.upgradeID))) ∧
    upgradeMachineDeployments uid ifield iid mds =
      upgradeMachineDeployments uid ifield iid (mds.filter (fun md =>
        !(lookupA md.templateAnnotations UpgradeIDAnnotationKey == some uid))) := by
  constructor
  · unfold updateCRDs
    rcases oldNodeToEtcdMemberId env.etcdMembersResult with e | emap
    · rfl
    · simp only
      rw [← updateCRDsLoop_filter]
  · exact upgradeMDs_filter uid ifield iid mds

def exOk {ε α : Type} : Except ε α → Bool
  | .ok _ => true
  | .error _ => false

theorem NewMachine_cases (cfg : CreatorCfg) (mo : MachineOptions)
    (name : String) (source : Machine) :
    NewMachine cfg mo name source = ([], Except.error "error updating machine spec image") ∨
    (∃ e, NewMachine cfg mo name source = ([Ev.createMachine name], Except.error e)) ∨
    (∃ p, NewMachine cfg mo name source = ([Ev.createMachine name], Except.ok p)) := by
  unfold NewMachine
  repeat' split
  all_goals first
  | exact Or.inl rfl
  | exact Or.inr (Or.inl ⟨_, rfl⟩)
  | exact Or.inr (Or.inr ⟨_, rfl⟩)

theorem updateMachine_shape (cfg : CreatorCfg) (mo : MachineOptions)
    (uid : String) (emap : List (String × String)) (name : String) (m : Machine) :
    (updateMachine cfg mo uid emap name m).1 = [] ∨
    (updateMachine cfg mo uid emap name m).1 = (NewMachine cfg mo name m).1 ∨
    (exOk (NewMachine cfg mo name m).2 = true ∧
      ∃ mid pn k, 1 ≤ k ∧ k ≤ 4 ∧
        (updateMachine cfg mo uid emap name m).1 =
          (NewMachine cfg mo name m).1 ++
            (List.take k [Ev.updateProviderIDMap, Ev.removeEtcdMember mid,
              Ev.deleteMachine m.name, Ev.patchAnnotate pn])) := by
  unfold updateMachine
  split
  · left; rfl
  · split
    · left; rfl
    · split
      · left; rfl
      · rename_i oldNode heqOld
        split
        · rename_i t e heq
          right; left; rw [heq]
        · rename_i t nm0 nodeOpt heq
          split
          · right; left; rw [heq]
          · rename_i node heqNode
            right; right
            refine ⟨by rw [heq]; rfl,
              (lookupA emap (hostnameForNode oldNode)).getD "", nm0.name, ?_⟩
            split
            · exact ⟨1, by omega, by omega, by simp [heq]⟩
            · split
              · exact ⟨2, by omega, by omega, by simp [heq]⟩
              · split
                · exact ⟨3, by omega, by omega, by simp [heq]⟩
                · split
                  · rename_i at2 nm2 u2 heqA
                    have hA : at2 = [Ev.patchAnnotate nm0.name] := by
                      have h2 := heqA
                      simp [applyAnnot] at h2
                      exact h2.1.symm
                    subst hA
                    exact ⟨4, by omega, by omega, by simp [heq]⟩
                  · rename_i at2 nm2 e2 heqA
                    simp [applyAnnot] at heqA

/-- Claim C3: in the per-machine update, the removal of the old etcd
member and the deletion of the old Machine are performed only when the
machine creator's configured wait stages all succeeded (`NewMachine`
returned without error): when `NewMachine` fails, neither action appears
in the trace; any member-removal action implies `NewMachine` succeeded;
and an old-machine deletion never precedes a member removal in the
trace. -/
theorem c3_teardown_only_after_replacement (cfg : CreatorCfg) (mo : MachineOptions)
    (uid : String) (emap : List (String × String)) (name : String) (m : Machine) :
    (exOk (NewMachine cfg mo name m).2 = false →
      ∀ e ∈ (updateMachine cfg mo uid emap name m).1,
        e.isRemoveMember = false ∧ e.isDeleteMachine = false) ∧
    (∀ e ∈ (updateMachine cfg mo uid emap name m).1,
      e.isRemoveMember = true → exOk (NewMachine cfg mo name m).2 = true) ∧
    (∀ j nm2, (updateMachine cfg mo uid emap name m).1.get? j =
        some (Ev.deleteMachine nm2) →
      ∃ k mid, k < j ∧ (updateMachine cfg mo uid emap name m).1.get? k =
        some (Ev.removeEtcdMember mid)) := by
  rcases updateMachine_shape cfg mo uid emap name m with hT | hT | ⟨hok, mid, pn, k, hk1, hk4, hT⟩
  · rw [hT]
    refine ⟨fun _ e he => absurd he (List.not_mem_nil e),
      fun e he => absurd he (List.not_mem_nil e), ?_⟩
    intro j nm2 hj
    simp at hj
  · rcases NewMachine_cases cfg mo name m with hc | ⟨e0, hc⟩ | ⟨p0, hc⟩ <;>
      rw [hc] at hT <;> simp only at hT <;> rw [hT]
    · refine ⟨fun _ e he => absurd he (List.not_mem_nil e),
        fun e he => absurd he (List.not_mem_nil e), ?_⟩
      intro j nm2 hj
      simp at hj
    · refine ⟨?_, ?_, ?_⟩
      · intro _ e he
        simp at he
        subst he
        exact ⟨rfl, rfl⟩
      · intro e he hrem
        simp at he
        subst he
        simp [Ev.isRemoveMember] at hrem
      · intro j nm2 hj
        have hm : Ev.deleteMachine nm2 ∈ [Ev.createMachine name] := List.get?_mem hj
        simp at hm
    · refine ⟨?_, ?_, ?_⟩
      · intro _ e he
        simp at he
        subst he
        exact ⟨rfl, rfl⟩
      · intro e he hrem
        simp at he
        subst he
        simp [Ev.isRemoveMember] at hrem
      · intro j nm2 hj
        have hm : Ev.deleteMachine nm2 ∈ [Ev.createMachine name] := List.get?_mem hj
        simp at hm
  · have hNM : (NewMachine cfg mo name m).1 = [Ev.createMachine name] := by
      rcases NewMachine_cases cfg mo name m with hc | ⟨e0, hc⟩ | ⟨p0, hc⟩ <;>
        rw [hc] at hok ⊢ <;> simp_all [exOk]
    rw [hT, hNM]
    refine ⟨fun hno => absurd hok (by simp [hno]), fun _ _ _ => hok, ?_⟩
    intro j nm2 hj
    interval_cases k
    · rcases j with _ | _ | j <;> exact absurd hj (by simp)
    · rcases j with _ | _ | _ | j <;> exact absurd hj (by simp)
    · rcases j with _ | _ | _ | _ | j
      · exact absurd hj (by simp)
      · exact absurd hj (by simp)
      · exact absurd hj (by simp)
      · exact ⟨2, mid, by omega, by simp⟩
      · exact absurd hj (by simp)
    · rcases j with _ | _ | _ | _ | _ | j
      · exact absurd hj (by simp)
      · exact absurd hj (by simp)
      · exact absurd hj (by simp)
      · exact ⟨2, mid, by omega, by simp⟩
      · exact absurd hj (by simp)
      · exact absurd hj (by simp)

theorem updateMachine_no_rewrite (cfg : CreatorCfg) (mo : MachineOptions)
    (uid : String) (emap : List (String × String)) (name : String) (m : Machine) :
    ∀ e ∈ (updateMachine cfg mo uid emap name m).1, e.isRewrite = false := by
  intro e he
  rcases updateMachine_shape cfg mo uid emap name m with hT | hT | ⟨hok, mid, pn, k, hk1, hk4, hT⟩
  · rw [hT] at he; simp at he
  · rw [hT] at he
    rcases NewMachine_cases cfg mo name m with hc | ⟨e0, hc⟩ | ⟨p0, hc⟩ <;> rw [hc] at he
    · simp at he
    · simp at he; subst he; rfl
    · simp at he; subst he; rfl
  · have hNM : (NewMachine cfg mo name m).1 = [Ev.createMachine name] := by
      rcases NewMachine_cases cfg mo name m with hc | ⟨e0, hc⟩ | ⟨p0, hc⟩ <;>
        rw [hc] at hok ⊢ <;> simp_all [exOk]
    rw [hT, hNM] at he
    rcases List.mem_append.mp he with he2 | he2
    · simp at he2; subst he2; rfl
    · have he3 := List.take_subset k _ he2
      simp only [List.mem_cons, List.not_mem_nil, or_false] at he3
      rcases he3 with h | h | h | h <;> subst h <;> rfl

theorem processOne_no_rewrite (uid : String) (now : Nat) (mo : MachineOptions)
    (emap : List (String × String)) (m : Machine) :
    ∀ e ∈ (processOne uid now mo emap m).1, e.isRewrite = false := by
  intro e he
  simp only [processOne] at he
  repeat' split at he
  all_goals first
  | exact absurd he (List.not_mem_nil e)
  | (simp only [List.mem_singleton] at he; subst he; rfl)
  | (rcases List.mem_append.mp he with he2 | he2 <;>
      first
      | (simp only [List.mem_singleton] at he2; subst he2; rfl)
      | exact updateMachine_no_rewrite _ _ _ _ _ _ e he2)

theorem updateCRDsLoop_no_rewrite (uid : String) (now : Nat) (mo : MachineOptions)
    (emap : List (String × String)) (ms : List Machine) :
    ∀ e ∈ (updateCRDsLoop uid now mo emap ms).1, e.isRewrite = false := by
  induction ms with
  | nil => intro e he; simp [updateCRDsLoop] at he
  | cons m rest ih =>
    intro e he
    rw [updateCRDsLoop] at he
    split at he
    · exact ih e he
    · split at he
      · exact ih e he
      · split at he
        · rename_i t heqP
          rcases List.mem_append.mp he with he2 | he2
          · have : e ∈ (processOne uid now mo emap m).1 := by rw [heqP]; exact he2
            exact processOne_no_rewrite _ _ _ _ _ e this
          · exact ih e he2
        · rename_i t e2 heqP
          have : e ∈ (processOne uid now mo emap m).1 := by rw [heqP]; exact he
          exact processOne_no_rewrite _ _ _ _ _ e this
        · rename_i t e2 heqP
          have : e ∈ (processOne uid now mo emap m).1 := by rw [heqP]; exact he
          exact processOne_no_rewrite _ _ _ _ _ e this

theorem updateCRDs_no_rewrite (env : UpgradeEnv) (desired : SemVer)
    (ms : List Machine) :
    ∀ e ∈ (updateCRDs env desired ms).1, e.isRewrite = false := by
  intro e he
  rw [updateCRDs] at he
  split at he
  · simp at he; subst he; rfl
  · simp only [List.mem_cons] at he
    rcases he with he | he
    · subst he; rfl
    · exact updateCRDsLoop_no_rewrite _ _ _ _ _ e he

theorem upgradePre_no_perMachine (env : UpgradeEnv) :
    ∀ e ∈ (upgradePre env).1, e.isPerMachine = false := by
  simp only [upgradePre, upgradePreRest]
  repeat' split
  all_goals intro e he
  all_goals simp only [List.cons_append, List.nil_append, List.singleton_append,
    List.append_assoc] at he
  all_goals fin_cases he <;> rfl

/-- Claim C1 (amended): the kubeadm-config version rewrite precedes the
per-machine loop — in every run's action trace, every rewrite action
comes strictly before every per-machine replacement action; the source
performs the rewrite before entering `updateCRDs`, not after it. -/
theorem c1_rewrite_precedes_machine_loop (env : UpgradeEnv) (i j : Nat) (ei ej : Ev)
    (hi : (Upgrade env).1.get? i = some ei) (hri : ei.isRewrite = true)
    (hj : (Upgrade env).1.get? j = some ej) (hpj : ej.isPerMachine = true) :
    i < j := by
  rw [Upgrade] at hi hj
  rcases hp : upgradePre env with ⟨t, res⟩
  rcases res with e0 | ⟨desired, machines⟩
  · rw [hp] at hi hj
    simp only at hi hj
    have : ej ∈ t := by
      have := List.get?_mem hj
      exact this
    have hfalse := upgradePre_no_perMachine env ej (by rw [hp]; exact this)
    rw [hpj] at hfalse
    cases hfalse
  · rw [hp] at hi hj
    simp only at hi hj
    have hilt : i < t.length := by
      by_contra hge
      push_neg at hge
      rw [List.get?_append_right hge] at hi
      have hmem := List.get?_mem hi
      have := updateCRDs_no_rewrite env desired machines ei hmem
      rw [hri] at this
      cases this
    have hjge : t.length ≤ j := by
      by_contra hlt
      push_neg at hlt
      rw [List.get?_append hlt] at hj
      have hmem := List.get?_mem hj
      have := upgradePre_no_perMachine env ej (by rw [hp]; exact hmem)
      rw [hpj] at this
      cases this
    omega

/-- Witness for C1's amended theorem at the concrete run `envC1`:
position 3 (the rewrite) is before position 9 (the old-machine
deletion). -/
theorem c1_rewrite_precedes_machine_loop_witness : (3 : Nat) < 9 :=
  c1_rewrite_precedes_machine_loop envC1 3 9 (Ev.kubeadmRewrite ⟨1, 13, 7⟩)
    (Ev.deleteMachine "cp-0") (by decide) rfl (by decide) rfl

/-- The parsed versions of the machines with a non-empty version field,
in list order (the set the spec says the min/max is computed over). -/
def parsedVersions : List Machine → List SemVer
  | [] => []
  | m :: rest =>
    if m.version == "" then parsedVersions rest
    else match parseTolerant m.version with
      | some v => v :: parsedVersions rest
      | none => parsedVersions rest

theorem SemVer.not_lt_chain {a b c : SemVer} (h1 : ¬SemVer.Lt b a)
    (h2 : ¬SemVer.Lt c b) : ¬SemVer.Lt c a := by
  intro h
  rcases SemVer.lt_total a b with hab | hab | hab
  · exact h2 (SemVer.lt_trans h hab)
  · subst hab; exact h2 h
  · exact h1 hab

theorem minMaxAux_spec (ms : List Machine)
    (hp : ∀ m ∈ ms, m.version ≠ "" →
      (parseTolerant m.version).any (fun v => !(v == unsetVersion)) = true) :
    ∀ mn mx, mn ≠ unsetVersion → mx ≠ unsetVersion →
    ∃ a b, minMaxAux ms mn mx = .ok (a, b) ∧
      a ∈ mn :: parsedVersions ms ∧
      (∀ w ∈ mn :: parsedVersions ms, ¬SemVer.Lt w a) ∧
      b ∈ mx :: parsedVersions ms ∧
      (∀ w ∈ mx :: parsedVersions ms, ¬SemVer.Lt b w) := by
  induction ms with
  | nil =>
    intro mn mx _ _
    refine ⟨mn, mx, rfl, by simp [parsedVersions], ?_, by simp [parsedVersions], ?_⟩
    · intro w hw
      simp [parsedVersions] at hw
      subst hw
      exact SemVer.lt_irrefl _
    · intro w hw
      simp [parsedVersions] at hw
      subst hw
      exact SemVer.lt_irrefl _
  | cons m rest ih =>
    intro mn mx hmn hmx
    have hp2 : ∀ m2 ∈ rest, m2.version ≠ "" →
        (parseTolerant m2.version).any (fun v => !(v == unsetVersion)) = true :=
      fun m2 hm2 => hp m2 (List.mem_cons_of_mem m hm2)
    cases hv : (m.version == "")
    · have hvne : m.version ≠ "" := by
        intro hcon
        rw [hcon] at hv
        simp at hv
      have hany := hp m (List.mem_cons_self m rest) hvne
      rcases hparse : parseTolerant m.version with _ | v
      · rw [hparse] at hany
        simp [Option.any] at hany
      · rw [hparse] at hany
        simp [Option.any] at hany
        have hvU : v ≠ unsetVersion := by simpa using hany
        have hmnF : (mn == unsetVersion) = false := by
          simp only [beq_eq_false_iff_ne, ne_eq]
          exact hmn
        have hmxF : (mx == unsetVersion) = false := by
          simp only [beq_eq_false_iff_ne, ne_eq]
          exact hmx
        have hpv : parsedVersions (m :: rest) = v :: parsedVersions rest := by
          simp [parsedVersions, hv, hparse]
        have hstep : minMaxAux (m :: rest) mn mx =
            minMaxAux rest (if SemVer.ltb v mn then v else mn)
              (if SemVer.ltb mx v then v else mx) := by
          simp [minMaxAux, hv, hparse, hmnF, hmxF]
        set mn2 := if SemVer.ltb v mn then v else mn with hmn2def
        set mx2 := if SemVer.ltb mx v then v else mx with hmx2def
        have hmn2 : mn2 ≠ unsetVersion := by
          rw [hmn2def]; split
          · exact hvU
          · exact hmn
        have hmx2 : mx2 ≠ unsetVersion := by
          rw [hmx2def]; split
          · exact hvU
          · exact hmx
        obtain ⟨a, b, heq, ha, hamin, hb, hbmax⟩ := ih hp2 mn2 mx2 hmn2 hmx2
        refine ⟨a, b, by rw [hstep]; exact heq, ?_, ?_, ?_, ?_⟩
        · rw [hpv]
          rcases List.mem_cons.mp ha with h | h
          · subst h
            rw [hmn2def]
            split
            · exact List.mem_cons_of_mem _ (List.mem_cons_self _ _)
            · exact List.mem_cons_self _ _
          · exact List.mem_cons_of_mem _ (List.mem_cons_of_mem _ h)
        · rw [hpv]
          intro w hw
          have hmn2min : ¬SemVer.Lt mn2 a := hamin mn2 (List.mem_cons_self _ _)
          rcases List.mem_cons.mp hw with h | h
          · rw [h]
            rcases hlt : SemVer.ltb v mn with _ | _
            · rw [hmn2def, if_neg (by simp [hlt])] at hmn2min
              exact hmn2min
            · rw [hmn2def, if_pos (by simp [hlt])] at hmn2min
              intro hcon
              exact hmn2min (SemVer.lt_trans ((SemVer.ltb_iff v mn).mp hlt) hcon)
          · rcases List.mem_cons.mp h with h2 | h2
            · rw [h2]
              rcases hlt : SemVer.ltb v mn with _ | _
              · rw [hmn2def, if_neg (by simp [hlt])] at hmn2min
                have hvmn : ¬SemVer.Lt v mn := by
                  intro hcon
                  rw [(SemVer.ltb_iff v mn).mpr hcon] at hlt
                  cases hlt
                exact SemVer.not_lt_chain hmn2min hvmn
              · rw [hmn2def, if_pos (by simp [hlt])] at hmn2min
                exact hmn2min
            · exact hamin w (List.mem_cons_of_mem _ h2)
        · rw [hpv]
          rcases List.mem_cons.mp hb with h | h
          · subst h
            rw [hmx2def]
            split
            · exact List.mem_cons_of_mem _ (List.mem_cons_self _ _)
            · exact List.mem_cons_self _ _
          · exact List.mem_cons_of_mem _ (List.mem_cons_of_mem _ h)
        · rw [hpv]
          intro w hw
          have hmx2max : ¬SemVer.Lt b mx2 := hbmax mx2 (List.mem_cons_self _ _)
          rcases List.mem_cons.mp hw with h | h
          · rw [h]
            rcases hgt : SemVer.ltb mx v with _ | _
            · rw [hmx2def, if_neg (by simp [hgt])] at hmx2max
              exact hmx2max
            · rw [hmx2def, if_pos (by simp [hgt])] at hmx2max
              intro hcon
              exact hmx2max (SemVer.lt_trans hcon ((SemVer.ltb_iff mx v).mp hgt))
          · rcases List.mem_cons.mp h with h2 | h2
            · rw [h2]
              rcases hgt : SemVer.ltb mx v with _ | _
              · rw [hmx2def, if_neg (by simp [hgt])] at hmx2max
                have hmxv : ¬SemVer.Lt mx v := by
                  intro hcon
                  rw [(SemVer.ltb_iff mx v).mpr hcon] at hgt
                  cases hgt
                exact SemVer.not_lt_chain hmxv hmx2max
              · rw [hmx2def, if_pos (by simp [hgt])] at hmx2max
                exact hmx2max
            · exact hbmax w (List.mem_cons_of_mem _ h2)
    · have hpv : parsedVersions (m :: rest) = parsedVersions rest := by
        simp [parsedVersions, hv]
      have hstep : minMaxAux (m :: rest) mn mx = minMaxAux rest mn mx := by
        simp [minMaxAux, hv]
      rw [hpv, hstep]
      exact ih hp2 mn mx hmn hmx

theorem minMaxAux_start (ms : List Machine)
    (hp : ∀ m ∈ ms, m.version ≠ "" →
      (parseTolerant m.version).any (fun v => !(v == unsetVersion)) = true)
    (hne : parsedVersions ms ≠ []) :
    ∃ a b, minMaxAux ms unsetVersion unsetVersion = .ok (a, b) ∧
      a ∈ parsedVersions ms ∧ (∀ w ∈ parsedVersions ms, ¬SemVer.Lt w a) ∧
      b ∈ parsedVersions ms ∧ (∀ w ∈ parsedVersions ms, ¬SemVer.Lt b w) := by
  induction ms with
  | nil => simp [parsedVersions] at hne
  | cons m rest ih =>
    have hp2 : ∀ m2 ∈ rest, m2.version ≠ "" →
        (parseTolerant m2.version).any (fun v => !(v == unsetVersion)) = true :=
      fun m2 hm2 => hp m2 (List.mem_cons_of_mem m hm2)
    cases hv : (m.version == "")
    · have hvne : m.version ≠ "" := by
        intro hcon
        rw [hcon] at hv
        simp at hv
      have hany := hp m (List.mem_cons_self m rest) hvne
      rcases hparse : parseTolerant m.version with _ | v
      · rw [hparse] at hany
        simp [Option.any] at hany
      · rw [hparse] at hany
        simp [Option.any] at hany
        have hvU : v ≠ unsetVersion := by simpa using hany
        have hpv : parsedVersions (m :: rest) = v :: parsedVersions rest := by
          simp [parsedVersions, hv, hparse]
        have hstep : minMaxAux (m :: rest) unsetVersion unsetVersion =
            minMaxAux rest v v := by
          simp [minMaxAux, hv, hparse]
        obtain ⟨a, b, heq, ha, hamin, hb, hbmax⟩ := minMaxAux_spec rest hp2 v v hvU hvU
        rw [hpv, hstep]
        exact ⟨a, b, heq, ha, hamin, hb, hbmax⟩
    · have hpv : parsedVersions (m :: rest) = parsedVersions rest := by
        simp [parsedVersions, hv]
      have hstep : minMaxAux (m :: rest) unsetVersion unsetVersion =
          minMaxAux rest unsetVersion unsetVersion := by
        simp [minMaxAux, hv]
      rw [hpv, hstep]
      rw [hpv] at hne
      exact ih hp2 hne

/-- Machines for the C7 counterexample: versions `v0.0.0` and `v1.0.0`. -/
def mV0 : Machine := { mConc with version := "v0.0.0" }

/-- Second machine of the C7 counterexample. -/
def mV1 : Machine := { mConc with version := "v1.0.0" }

/-- Claim C7 counterexample: over machines at versions `v0.0.0` and
`v1.0.0`, the code returns min = max = `1.0.0`, although the parsed
version `0.0.0` of the first machine is strictly below it — the zero
version collides with the "still unset" sentinel, so the returned
minimum is not the minimum over the machines with a non-empty version
field. -/
theorem c7_counterexample :
    minMaxControlPlaneVersions [mV0, mV1] = .ok (⟨1, 0, 0⟩, ⟨1, 0, 0⟩) ∧
    parsedVersions [mV0, mV1] = [⟨0, 0, 0⟩, ⟨1, 0, 0⟩] ∧
    SemVer.Lt ⟨0, 0, 0⟩ ⟨1, 0, 0⟩ := by decide

/-- Claim C7 (amended): provided no machine's version parses to the
sentinel `0.0.0`, `minMaxControlPlaneVersions` returns exactly the
minimum and maximum of the parsed versions over the machines whose
version field is non-empty (machines with an empty version are skipped,
not an error), and the desired-version defaulting step takes the
observed maximum when the user set no version. -/
theorem c7_min_max_and_defaulting (ms : List Machine)
    (hp : ∀ m ∈ ms, m.version ≠ "" →
      (parseTolerant m.version).any (fun v => !(v == unsetVersion)) = true)
    (hne : parsedVersions ms ≠ []) :
    ∃ mn mx, minMaxControlPlaneVersions ms = .ok (mn, mx) ∧
      mn ∈ parsedVersions ms ∧ (∀ w ∈ parsedVersions ms, ¬SemVer.Lt w mn) ∧
      mx ∈ parsedVersions ms ∧ (∀ w ∈ parsedVersions ms, ¬SemVer.Lt mx w) ∧
      defaultedDesiredVersion unsetVersion mx = mx := by
  obtain ⟨a, b, heq, h1, h2, h3, h4⟩ := minMaxAux_start ms hp hne
  exact ⟨a, b, heq, h1, h2, h3, h4, rfl⟩

/-- The spec's end-to-end fleet: versions 1.13.7, 1.13.7, 1.13.8. -/
def msW : List Machine :=
  [{ mConc with version := "v1.13.7" }, { mConc with version := "v1.13.7" },
   { mConc with version := "v1.13.8" }]

/-- Witness for C7's amended theorem at the spec's three-machine fleet. -/
theorem c7_min_max_and_defaulting_witness :
    ∃ mn mx, minMaxControlPlaneVersions msW = .ok (mn, mx) ∧
      mn ∈ parsedVersions msW ∧ (∀ w ∈ parsedVersions msW, ¬SemVer.Lt w mn) ∧
      mx ∈ parsedVersions msW ∧ (∀ w ∈ parsedVersions msW, ¬SemVer.Lt mx w) ∧
      defaultedDesiredVersion unsetVersion mx = mx :=
  c7_min_max_and_defaulting msW (by decide) (by decide)

/-- The decoded `ClusterConfiguration` document of a config map (an
absent key decodes as the empty document, as in the source). -/
def ccDoc (cm : ConfigMap) : CCDoc :=
  (lookupA cm.data "ClusterConfiguration").getD []

theorem lookupA_mapSet_self {α : Type} (l : List (String × α)) (k : String) (v : α) :
    lookupA (mapSet l k v) k = some v := by
  induction l with
  | nil => simp [mapSet, lookupA]
  | cons p rest ih =>
    rw [mapSet]
    cases h : (p.1 == k)
    · rw [if_neg (by simp [h]), lookupA, if_neg (by simp_all), ih]
    · rw [if_pos (by simp [h]), lookupA, if_pos (by simp)]

theorem lookupA_mapSet_ne {α : Type} (l : List (String × α)) (k : String) (v : α)
    (k2 : String) (h : k2 ≠ k) :
    lookupA (mapSet l k v) k2 = lookupA l k2 := by
  induction l with
  | nil =>
    simp only [mapSet, lookupA]
    rw [if_neg (by simpa using fun hc => h hc.symm)]
  | cons p rest ih =>
    rw [mapSet]
    cases hp : (p.1 == k)
    · rw [if_neg (by simp [hp]), lookupA, lookupA]
      split
      · rfl
      · exact ih
    · rw [if_pos (by simp [hp]), lookupA, lookupA,
        if_neg (by simpa using fun hc => h hc.symm)]
      have hpk : p.1 = k := by simpa using hp
      rw [if_neg (by rw [hpk]; simpa using fun hc => h hc.symm)]

theorem mem_keys_mapSet {α : Type} (l : List (String × α)) (k : String) (v : α)
    (k2 : String) :
    k2 ∈ (mapSet l k v).map Prod.fst ↔ k2 = k ∨ k2 ∈ l.map Prod.fst := by
  induction l with
  | nil => simp [mapSet]
  | cons p rest ih =>
    rw [mapSet]
    cases hp : (p.1 == k)
    · rw [if_neg (by simp [hp])]
      simp only [List.map_cons, List.mem_cons, ih]
      tauto
    · rw [if_pos (by simp [hp])]
      have : p.1 = k := by simpa using hp
      subst this
      simp only [List.map_cons, List.mem_cons]
      tauto

theorem keys_mapSet_nodup {α : Type} (l : List (String × α)) (k : String) (v : α)
    (h : (l.map Prod.fst).Nodup) : ((mapSet l k v).map Prod.fst).Nodup := by
  induction l with
  | nil => simp [mapSet]
  | cons p rest ih =>
    rw [mapSet]
    simp only [List.map_cons, List.nodup_cons] at h
    cases hp : (p.1 == k)
    · rw [if_neg (by simp [hp])]
      simp only [List.map_cons, List.nodup_cons]
      refine ⟨?_, ih h.2⟩
      rw [mem_keys_mapSet]
      rintro (hc | hc)
      · rw [hc] at hp
        simp at hp
      · exact h.1 hc
    · rw [if_pos (by simp [hp])]
      have : p.1 = k := by simpa using hp
      subst this
      simp only [List.map_cons, List.nodup_cons]
      exact h

theorem mem_keys_insertSorted (p : String × String) (l : CCDoc) (k : String) :
    k ∈ (insertSorted p l).map Prod.fst ↔ k = p.1 ∨ k ∈ l.map Prod.fst := by
  induction l with
  | nil => simp [insertSorted]
  | cons q rest ih =>
    rw [insertSorted]
    split
    · simp
    · simp only [List.map_cons, List.mem_cons, ih]
      tauto

theorem lookupA_insertSorted_ne (p : String × String) (l : CCDoc) (k : String)
    (h : k ≠ p.1) : lookupA (insertSorted p l) k = lookupA l k := by
  have hb : (p.1 == k) = false := by simpa using fun hc => h hc.symm
  induction l with
  | nil => simp [insertSorted, lookupA, hb]
  | cons q rest ih =>
    rw [insertSorted]
    split
    · rw [lookupA, if_neg (by simp [hb])]
    · rw [lookupA, lookupA]
      split
      · rfl
      · exact ih

theorem lookupA_insertSorted_self (p : String × String) (l : CCDoc)
    (h : p.1 ∉ l.map Prod.fst) : lookupA (insertSorted p l) p.1 = some p.2 := by
  induction l with
  | nil => simp [insertSorted, lookupA]
  | cons q rest ih =>
    rw [insertSorted]
    simp only [List.map_cons, List.mem_cons] at h
    push_neg at h
    split
    · rw [lookupA, if_pos (by simp)]
    · rw [lookupA, if_neg (by simpa using fun hc => h.1 hc.symm)]
      exact ih h.2

theorem keys_sortByKey (d : CCDoc) (k : String) :
    k ∈ (sortByKey d).map Prod.fst ↔ k ∈ d.map Prod.fst := by
  induction d with
  | nil => simp [sortByKey]
  | cons p rest ih =>
    show k ∈ (insertSorted p (sortByKey rest)).map Prod.fst ↔ _
    rw [mem_keys_insertSorted]
    simp only [List.map_cons, List.mem_cons, ih]

theorem lookupA_sortByKey (d : CCDoc) (k : String)
    (h : (d.map Prod.fst).Nodup) : lookupA (sortByKey d) k = lookupA d k := by
  induction d with
  | nil => rfl
  | cons p rest ih =>
    simp only [List.map_cons, List.nodup_cons] at h
    show lookupA (insertSorted p (sortByKey rest)) k = _
    by_cases hk : k = p.1
    · subst hk
      rw [lookupA_insertSorted_self p (sortByKey rest)
          (by rw [keys_sortByKey]; exact h.1)]
      rw [lookupA, if_pos (by simp)]
    · rw [lookupA_insertSorted_ne p (sortByKey rest) k hk, ih h.2, lookupA,
        if_neg (by simpa using fun hc => hk hc.symm)]

/-- Strictly-ascending key order of a document: the order in which the
serializer writes a Go map, and the order of the reference kubeadm
document. -/
def SortedKeys (d : CCDoc) : Prop :=
  List.Pairwise (fun p q => strLeb p.1 q.1 = true ∧ p.1 ≠ q.1) d

instance (d : CCDoc) : Decidable (SortedKeys d) := by
  unfold SortedKeys; infer_instance

theorem sortByKey_of_sorted (d : CCDoc) (h : SortedKeys d) : sortByKey d = d := by
  induction d with
  | nil => rfl
  | cons p rest ih =>
    show insertSorted p (sortByKey rest) = p :: rest
    rcases h with _ | ⟨hrel, hrest⟩
    rw [ih hrest]
    cases rest with
    | nil => rfl
    | cons q rs =>
      rw [insertSorted, if_pos (hrel q (List.mem_cons_self q rs)).1]

theorem map_replace_id_of_not_mem (l : CCDoc) (k : String) (v : String)
    (h : k ∉ l.map Prod.fst) :
    l.map (fun p => if p.1 = k then (k, v) else p) = l := by
  induction l with
  | nil => rfl
  | cons p rest ih =>
    simp only [List.map_cons, List.mem_cons] at h ⊢
    push_neg at h
    rw [if_neg (by simpa using fun hc => h.1 hc.symm), ih h.2]

theorem mapSet_eq_map_replace (l : CCDoc) (k : String) (v : String)
    (hnd : (l.map Prod.fst).Nodup) :
    k ∈ l.map Prod.fst →
    mapSet l k v = l.map (fun p => if p.1 = k then (k, v) else p) := by
  induction l with
  | nil => simp
  | cons p rest ih =>
    intro hmem
    simp only [List.map_cons, List.nodup_cons] at hnd
    rw [mapSet, List.map_cons]
    cases hp : (p.1 == k)
    · have hpk : p.1 ≠ k := by simpa using hp
      rw [if_neg (by simp [hp])]
      rw [if_neg hpk]
      simp only [List.map_cons, List.mem_cons] at hmem
      rcases hmem with h | h
      · exact absurd h.symm hpk
      · rw [ih hnd.2 h]
    · have hpk : p.1 = k := by simpa using hp
      subst hpk
      rw [if_pos (by simp), if_pos rfl,
        map_replace_id_of_not_mem rest p.1 v hnd.1]

theorem sortedKeys_map_replace (l : CCDoc) (k : String) (v : String)
    (h : SortedKeys l) :
    SortedKeys (l.map (fun p => if p.1 = k then (k, v) else p)) := by
  refine List.Pairwise.map _ ?_ h
  intro a b hab
  have ha : (if a.1 = k then ((k, v) : String × String) else a).1 = a.1 := by
    split <;> simp_all
  have hb : (if b.1 = k then ((k, v) : String × String) else b).1 = b.1 := by
    split <;> simp_all
  simpa [ha, hb] using hab

/-- Claim C8: the kubeadm-config rewrite changes exactly the
`kubernetesVersion` entry of the `ClusterConfiguration` document — for a
well-formed document (unique keys), the rewritten document binds
`kubernetesVersion` to the new version and every other key to its old
value; every other `data` entry and the config map's metadata are
untouched (the embedding is pure: the source deep-copies before
mutating, so the original object is not modified); and for a
serializer-ordered input containing the key — the reference input — the
output document is entry-for-entry the input with only that entry
replaced. -/
theorem c8_kubeadm_rewrite_frame (cm : ConfigMap) (version : String)
    (hnodup : ((ccDoc cm).map Prod.fst).Nodup) :
    lookupA (ccDoc (updateKubeadmKubernetesVersion cm version)) "kubernetesVersion" =
      some version ∧
    (∀ k, k ≠ "kubernetesVersion" →
      lookupA (ccDoc (updateKubeadmKubernetesVersion cm version)) k =
        lookupA (ccDoc cm) k) ∧
    (∀ dk, dk ≠ "ClusterConfiguration" →
      lookupA (updateKubeadmKubernetesVersion cm version).data dk =
        lookupA cm.data dk) ∧
    (updateKubeadmKubernetesVersion cm version).name = cm.name ∧
    (updateKubeadmKubernetesVersion cm version).resourceVersion = cm.resourceVersion ∧
    (SortedKeys (ccDoc cm) → "kubernetesVersion" ∈ (ccDoc cm).map Prod.fst →
      ccDoc (updateKubeadmKubernetesVersion cm version) =
        (ccDoc cm).map (fun p =>
          if p.1 = "kubernetesVersion" then ("kubernetesVersion", version) else p)) := by
  have hud : ccDoc (updateKubeadmKubernetesVersion cm version) =
      sortByKey (mapSet (ccDoc cm) "kubernetesVersion" version) := by
    show (lookupA (mapSet cm.data "ClusterConfiguration"
        (sortByKey (mapSet (ccDoc cm) "kubernetesVersion" version)))
        "ClusterConfiguration").getD [] = _
    rw [lookupA_mapSet_self]
    rfl
  have hndset : ((mapSet (ccDoc cm) "kubernetesVersion" version).map Prod.fst).Nodup :=
    keys_mapSet_nodup _ _ _ hnodup
  refine ⟨?_, ?_, ?_, rfl, rfl, ?_⟩
  · rw [hud, lookupA_sortByKey _ _ hndset, lookupA_mapSet_self]
  · intro k hk
    rw [hud, lookupA_sortByKey _ _ hndset, lookupA_mapSet_ne _ _ _ _ hk]
  · intro dk hdk
    show lookupA (mapSet cm.data "ClusterConfiguration" _) dk = _
    rw [lookupA_mapSet_ne _ _ _ _ hdk]
  · intro hsort hmem
    rw [hud, mapSet_eq_map_replace _ _ _ hnodup hmem,
      sortByKey_of_sorted _ (sortedKeys_map_replace _ _ _ hsort)]

/-- The reference `ClusterConfiguration` document of the source's test,
with each non-scalar value carried as an opaque serialized string. -/
def ccRef : CCDoc :=
  [("apiServer", "certSANs+extraArgs+timeoutForControlPlane"),
   ("apiVersion", "kubeadm.k8s.io/v1beta1"),
   ("certificatesDir", "/etc/kubernetes/pki"),
   ("clusterName", "test1"),
   ("controlPlaneEndpoint", "example.com:6443"),
   ("controllerManager", "extraArgs"),
   ("dns", "CoreDNS"),
   ("etcd", "local dataDir /var/lib/etcd"),
   ("imageRepository", "k8s.gcr.io"),
   ("kind", "ClusterConfiguration"),
   ("kubernetesVersion", "v1.13.7"),
   ("networking", "dnsDomain+podSubnet+serviceSubnet"),
   ("scheduler", "empty-object")]

/-- The reference kubeadm config map of the source's test. -/
def cmRef : ConfigMap :=
  { name := "kubeadm-config"
  , resourceVersion := "1312"
  , data := [("ClusterConfiguration", ccRef),
             ("ClusterStatus",
              [("apiEndpoints", "two endpoints"),
               ("apiVersion", "kubeadm.k8s.io/v1beta1"),
               ("kind", "ClusterStatus")])] }

/-- Witness for C8 at the reference config map, rewriting `v1.13.7` to
`v1.14.3`. -/
theorem c8_kubeadm_rewrite_frame_witness :
    lookupA (ccDoc (updateKubeadmKubernetesVersion cmRef "v1.14.3")) "kubernetesVersion" =
      some "v1.14.3" ∧
    (∀ k, k ≠ "kubernetesVersion" →
      lookupA (ccDoc (updateKubeadmKubernetesVersion cmRef "v1.14.3")) k =
        lookupA (ccDoc cmRef) k) ∧
    (∀ dk, dk ≠ "ClusterConfiguration" →
      lookupA (updateKubeadmKubernetesVersion cmRef "v1.14.3").data dk =
        lookupA cmRef.data dk) ∧
    (updateKubeadmKubernetesVersion cmRef "v1.14.3").name = cmRef.name ∧
    (updateKubeadmKubernetesVersion cmRef "v1.14.3").resourceVersion =
      cmRef.resourceVersion ∧
    (SortedKeys (ccDoc cmRef) → "kubernetesVersion" ∈ (ccDoc cmRef).map Prod.fst →
      ccDoc (updateKubeadmKubernetesVersion cmRef "v1.14.3") =
        (ccDoc cmRef).map (fun p =>
          if p.1 = "kubernetesVersion" then ("kubernetesVersion", "v1.14.3") else p)) :=
  c8_kubeadm_rewrite_frame cmRef "v1.14.3" (by decide)

theorem isReadyAux_snd (get : String → PodGetResult) (hostname : String)
    (cs : List String) :
    (isReadyAux get hostname cs).2 = true ↔
      ∀ c ∈ cs, componentReady get hostname c = true := by
  induction cs with
  | nil => simp [isReadyAux]
  | cons c rest ih =>
    cases h : componentReady get hostname c
    · constructor
      · intro hcon
        rw [isReadyAux, if_neg (by simp [h])] at hcon
        cases hcon
      · intro hall
        have := hall c (List.mem_cons_self c rest)
        rw [h] at this
        cases this
    · rcases hr : isReadyAux get hostname rest with ⟨t, b⟩
      rw [hr] at ih
      rw [isReadyAux, if_pos (by simp [h]), hr]
      simp only
      rw [ih]
      constructor
      · intro hall w hw
        rcases List.mem_cons.mp hw with hw | hw
        · subst hw; exact h
        · exact hall w hw
      · intro hall w hw
        exact hall w (List.mem_cons_of_mem c hw)

theorem isReadyAux_fst (get : String → PodGetResult) (hostname : String)
    (cs : List String) :
    (isReadyAux get hostname cs).1 =
      ((cs.takeWhile (componentReady get hostname)).map
        (fun c => c ++ "-" ++ hostname)) ++
      (((cs.dropWhile (componentReady get hostname)).take 1).map
        (fun c => c ++ "-" ++ hostname)) := by
  induction cs with
  | nil => simp [isReadyAux]
  | cons c rest ih =>
    cases h : componentReady get hostname c
    · rw [isReadyAux, if_neg (by simp [h]), List.takeWhile_cons, List.dropWhile_cons]
      simp [h]
    · rcases hr : isReadyAux get hostname rest with ⟨t, b⟩
      rw [hr] at ih
      rw [isReadyAux, if_pos (by simp [h]), hr, List.takeWhile_cons, List.dropWhile_cons]
      simp only [h, if_pos rfl]
      simpa using ih

/-- Claim C9: `isReady` is true exactly when, for each component of the
fixed ordered list, the pod `<component>-<hostname>` is found and every
required condition type reports status `True`; a not-found pod or an
unexpected read error makes it false without being an error.  The pods
fetched are the passing prefix of the component list followed by the
first failing component — the loop short-circuits there.  The polling
step built on `isReady` never returns an error, so an unready or
erroring iteration keeps polling until the stage timeout. -/
theorem c9_is_ready_spec (get : String → PodGetResult) (hostname : String) :
    (isReady get hostname = true ↔
      ∀ c ∈ components, ∃ conds, get (c ++ "-" ++ hostname) = .found conds ∧
        ∀ rc ∈ requiredConditions, rc ∈ trueConditions conds) ∧
    consultedPods get hostname =
      ((components.takeWhile (componentReady get hostname)).map
        (fun c => c ++ "-" ++ hostname)) ++
      (((components.dropWhile (componentReady get hostname)).take 1).map
        (fun c => c ++ "-" ++ hostname)) ∧
    (nodeReadyPollStep get hostname).2 = none := by
  refine ⟨?_, isReadyAux_fst get hostname components, rfl⟩
  rw [isReady, isReadyAux_snd]
  constructor
  · intro hall c hc
    have h := hall c hc
    rw [componentReady] at h
    rcases hg : get (c ++ "-" ++ hostname) with _ | msg | conds
    · rw [hg] at h; cases h
    · rw [hg] at h; cases h
    · rw [hg] at h
      refine ⟨conds, rfl, ?_⟩
      intro rc hrc
      have h2 := (List.all_eq_true.mp h) rc hrc
      simpa using h2
  · intro hall c hc
    obtain ⟨conds, hg, hcond⟩ := hall c hc
    rw [componentReady, hg, List.all_eq_true]
    intro rc hrc
    simpa using hcond rc hrc
